import Mathlib

/-!
A shallow embedding of the Wisp language (parser + evaluator) from the
repository sources `src/parser.js` and `src/unnamed/part_001`, together
with theorems checking the specification claims against it.

Strings are modelled as `List Char`; JavaScript regular-expression
character classes are modelled by their ASCII fragment.  Machine numbers
are modelled as `Int` (the parser only produces decimal naturals and the
arithmetic builtins used by the claims are closed on integers; the
floating-point division builtin `/` is outside the embedding).
-/

namespace Wisp

/-- ASCII fragment of the JavaScript whitespace class \s. -/
def isWspace (c : Char) : Bool :=
  c = ' ' || c = '\t' || c = '\n' || c = '\r' || c = '\x0b' || c = '\x0c'

/-- JavaScript word characters [A-Za-z0-9_] (the class \w, used by the
boundary \b in the number token regex). -/
def isWordChar (c : Char) : Bool :=
  c.isAlpha || c.isDigit || c = '_'

/-- Characters allowed in a bare word token: the regex class [^\s(),#"]
from `parseExpression`. -/
def isWordTokChar (c : Char) : Bool :=
  !(isWspace c || c = '(' || c = ')' || c = ',' || c = '#' || c = '"')

/-- `skipSpace` of `src/parser.js`: `string.search(/\S/)` finds the first
non-whitespace character and the string is sliced there; an all-whitespace
string becomes empty.  This is exactly dropping the leading whitespace run. -/
def skipSpaceSearch (s : List Char) : List Char :=
  s.dropWhile isWspace

theorem length_dropWhile_le (p : Char → Bool) (l : List Char) :
    (l.dropWhile p).length ≤ l.length := by
  induction l with
  | nil => simp
  | cons y ys ih =>
    rw [List.dropWhile_cons]
    split
    · exact Nat.le_trans ih (by simp)
    · simp

/-! `skipSpace` of `src/unnamed/part_001`: the regex `(\s|#.*)*` removes
a maximal leading run made of whitespace characters and `#`-to-end-of-line
comments (`.` does not match the newline, which is then consumed as \s).
`skipComment` is the state inside a `#.*` segment: the JS dot matches
neither the line feed nor the carriage return, so the comment ends at
either (the terminator itself is whitespace and skipping resumes) or at
the end of the input. -/

mutual

def skipSpaceRegex : List Char → List Char
  | [] => []
  | c :: rest =>
    if isWspace c then skipSpaceRegex rest
    else if c = '#' then skipComment rest
    else c :: rest

def skipComment : List Char → List Char
  | [] => []
  | c :: rest =>
    if c = '\n' || c = '\r' then skipSpaceRegex rest
    else skipComment rest

end

theorem length_skip_le (s : List Char) :
    (skipSpaceRegex s).length ≤ s.length ∧ (skipComment s).length ≤ s.length := by
  induction s with
  | nil => constructor <;> simp [skipSpaceRegex, skipComment]
  | cons c rest ih =>
    obtain ⟨ih1, ih2⟩ := ih
    constructor
    · rw [skipSpaceRegex]
      split
      · exact Nat.le_trans ih1 (by simp)
      · split
        · exact Nat.le_trans ih2 (by simp)
        · simp
    · rw [skipComment]
      split
      · exact Nat.le_trans ih1 (by simp)
      · exact Nat.le_trans ih2 (by simp)

theorem length_skipSpaceRegex_le (s : List Char) :
    (skipSpaceRegex s).length ≤ s.length :=
  (length_skip_le s).1

/-! ## Expressions -/

/-- Payload of a `{type: "value"}` node: the parser stores a number
(`Number(match[0])`) or a string (the quoted content). -/
inductive Lit where
  | num : Int → Lit
  | str : String → Lit
deriving DecidableEq

/-- The expression tree built by the parser: `{type: "value"}`,
`{type: "word"}` and `{type: "apply", operator, args}` nodes. -/
inductive Expr where
  | value : Lit → Expr
  | word : String → Expr
  | apply : Expr → List Expr → Expr

/-! ## Token matchers (the three regexes tried by `parseExpression`) -/

/-- The regex /^"([^"]*)"/: a quote, any run of non-quote characters,
and a closing quote; yields the content and the remaining text. -/
def matchString (s : List Char) : Option (String × List Char) :=
  match s with
  | [] => none
  | c :: rest =>
    if c = '"' then
      match rest.dropWhile (fun x => x ≠ '"') with
      | [] => none
      | _ :: after =>
        some (String.mk (rest.takeWhile (fun x => x ≠ '"')), after)
    else none

/-- Decimal digits folded into the natural number they denote
(`Number(match[0])` on a digit run). -/
def digitsToNat (ds : List Char) : Nat :=
  ds.foldl (fun n c => 10 * n + (c.toNat - 48)) 0

/-- The regex /^\d+\b/: a maximal run of digits followed by a word
boundary.  The boundary fails exactly when the character after the digit
run is a word character (it cannot be a digit, the run being maximal), in
which case the whole regex fails and the word token is tried instead. -/
def matchNumber (s : List Char) : Option (Nat × List Char) :=
  if (s.takeWhile Char.isDigit).isEmpty then none
  else
    match (s.dropWhile Char.isDigit).head? with
    | some c =>
      if isWordChar c then none
      else some (digitsToNat (s.takeWhile Char.isDigit), s.dropWhile Char.isDigit)
    | none => some (digitsToNat (s.takeWhile Char.isDigit), s.dropWhile Char.isDigit)

/-- The regex /^[^\s(),#"]+/: a maximal nonempty run of word-token
characters. -/
def matchWord (s : List Char) : Option (String × List Char) :=
  if (s.takeWhile isWordTokChar).isEmpty then none
  else some (String.mk (s.takeWhile isWordTokChar), s.dropWhile isWordTokChar)

/-- The token dispatch of `parseExpression`: the three regexes are tried
in order (string literal, number literal, bare word); `none` is the case
in which `parseExpression` throws SyntaxError "Unexpected syntax". -/
def tokenAt (s : List Char) : Option (Expr × List Char) :=
  match matchString s with
  | some (v, rest) => some (.value (.str v), rest)
  | none =>
    match matchNumber s with
    | some (n, rest) => some (.value (.num (Int.ofNat n)), rest)
    | none =>
      match matchWord s with
      | some (w, rest) => some (.word w, rest)
      | none => none

/-! ## The parser

`parseExpression` / `parseApply` from `src/unnamed/part_001` (identical
in `src/parser.js` except for its `skipSpace`).  The source recursion is
modelled with a fuel parameter; `parse_sufficient` below shows that fuel
`2 * length + 1` always suffices, so the wrapper `parse` is total.  The
error type is `String`: every `throw` in the source parser is a
`SyntaxError`, so an error value is a SyntaxError message. -/

mutual

def parseExpressionF : Nat → List Char → Option (Except String (Expr × List Char))
  | 0, _ => none
  | f + 1, s =>
    match tokenAt (skipSpaceRegex s) with
    | none =>
      some (.error ("Unexpected syntax: " ++ String.mk (skipSpaceRegex s)))
    | some (e, rest) => parseApplyF f e rest

def parseApplyF : Nat → Expr → List Char → Option (Except String (Expr × List Char))
  | 0, _, _ => none
  | f + 1, e, s =>
    if (skipSpaceRegex s).head? = some '(' then
      parseArgsF f e [] (skipSpaceRegex (skipSpaceRegex s).tail)
    else
      some (.ok (e, skipSpaceRegex s))

def parseArgsF : Nat → Expr → List Expr → List Char → Option (Except String (Expr × List Char))
  | 0, _, _, _ => none
  | f + 1, op, acc, t =>
    if t.head? = some ')' then
      parseApplyF f (.apply op acc) t.tail
    else
      match parseExpressionF f t with
      | none => none
      | some (.error m) => some (.error m)
      | some (.ok (arg, rest)) =>
        if (skipSpaceRegex rest).head? = some ',' then
          parseArgsF f op (acc ++ [arg]) (skipSpaceRegex (skipSpaceRegex rest).tail)
        else if (skipSpaceRegex rest).head? = some ')' then
          parseApplyF f (.apply op (acc ++ [arg])) (skipSpaceRegex rest).tail
        else
          some (.error ("Expected " ++ String.mk ['\x27', ',', '\x27'] ++
            " or " ++ String.mk ['\x27', ')', '\x27']))

end

/-! ## Totality of the parser -/

theorem matchString_consume (s : List Char) (v : String) (r : List Char)
    (h : matchString s = some (v, r)) : r.length < s.length := by
  unfold matchString at h
  split at h
  · simp at h
  · rename_i c rest
    split at h
    · split at h
      · simp at h
      · rename_i c2 after heq
        simp only [Option.some.injEq, Prod.mk.injEq] at h
        obtain ⟨-, hr⟩ := h
        subst hr
        have h1 : (c2 :: after).length ≤ rest.length := by
          rw [← heq]; exact length_dropWhile_le _ _
        simp only [List.length_cons] at h1 ⊢
        omega
    · simp at h

theorem matchNumber_consume (s : List Char) (n : Nat) (r : List Char)
    (h : matchNumber s = some (n, r)) : r.length < s.length := by
  unfold matchNumber at h
  split at h
  · simp at h
  · rename_i hne
    have hr : r = s.dropWhile Char.isDigit := by
      split at h
      · split at h
        · simp at h
        · simp only [Option.some.injEq, Prod.mk.injEq] at h
          exact h.2.symm
      · simp only [Option.some.injEq, Prod.mk.injEq] at h
        exact h.2.symm
    match s with
    | [] => simp at hne
    | d :: t =>
      by_cases hd : d.isDigit
      · rw [hr, List.dropWhile_cons_of_pos hd]
        exact Nat.lt_succ_of_le (length_dropWhile_le _ _)
      · rw [List.takeWhile_cons_of_neg hd] at hne
        simp at hne

theorem matchWord_consume (s : List Char) (v : String) (r : List Char)
    (h : matchWord s = some (v, r)) : r.length < s.length := by
  unfold matchWord at h
  split at h
  · simp at h
  · rename_i hne
    simp only [Option.some.injEq, Prod.mk.injEq] at h
    match s with
    | [] => simp at hne
    | d :: t =>
      by_cases hd : isWordTokChar d
      · rw [← h.2, List.dropWhile_cons_of_pos hd]
        exact Nat.lt_succ_of_le (length_dropWhile_le _ _)
      · rw [List.takeWhile_cons_of_neg hd] at hne
        simp at hne

theorem tokenAt_consume (s : List Char) (e : Expr) (r : List Char)
    (h : tokenAt s = some (e, r)) : r.length < s.length := by
  unfold tokenAt at h
  split at h
  · rename_i v rest hm
    simp only [Option.some.injEq, Prod.mk.injEq] at h
    exact h.2 ▸ matchString_consume s v rest hm
  · split at h
    · rename_i n rest hm
      simp only [Option.some.injEq, Prod.mk.injEq] at h
      exact h.2 ▸ matchNumber_consume s n rest hm
    · split at h
      · rename_i w rest hm
        simp only [Option.some.injEq, Prod.mk.injEq] at h
        exact h.2 ▸ matchWord_consume s w rest hm
      · simp at h

theorem parse_consume : ∀ f : Nat,
    (∀ s e r, parseExpressionF f s = some (.ok (e, r)) → r.length < s.length) ∧
    (∀ e0 s e r, parseApplyF f e0 s = some (.ok (e, r)) → r.length ≤ s.length) ∧
    (∀ op acc t e r, parseArgsF f op acc t = some (.ok (e, r)) → r.length < t.length) := by
  intro f
  induction f with
  | zero =>
    refine ⟨?_, ?_, ?_⟩
    · intro s e r h; simp [parseExpressionF] at h
    · intro e0 s e r h; simp [parseApplyF] at h
    · intro op acc t e r h; simp [parseArgsF] at h
  | succ f ih =>
    obtain ⟨ihE, ihA, ihG⟩ := ih
    refine ⟨?_, ?_, ?_⟩
    · intro s e r h
      simp only [parseExpressionF] at h
      split at h
      · simp at h
      · rename_i e0 rest htok
        have h1 := tokenAt_consume _ _ _ htok
        have h2 := ihA e0 rest e r h
        have h3 := length_skipSpaceRegex_le s
        omega
    · intro e0 s e r h
      simp only [parseApplyF] at h
      split at h
      · have h2 := ihG e0 [] _ e r h
        have h3 := length_skipSpaceRegex_le ((skipSpaceRegex s).tail)
        have h4 := length_skipSpaceRegex_le s
        have h5 : ((skipSpaceRegex s).tail).length = (skipSpaceRegex s).length - 1 := by
          simp [List.length_tail]
        omega
      · simp only [Option.some.injEq, Except.ok.injEq, Prod.mk.injEq] at h
        rw [← h.2]
        exact length_skipSpaceRegex_le s
    · intro op acc t e r h
      simp only [parseArgsF] at h
      split at h
      · rename_i hpar
        have h2 := ihA _ _ e r h
        have ht : t ≠ [] := by
          intro hh; rw [hh] at hpar; simp at hpar
        have h3 : t.tail.length = t.length - 1 := by simp [List.length_tail]
        have h4 : 1 ≤ t.length := by
          match t, ht with
          | x :: xs, _ => simp
        omega
      · split at h
        · simp at h
        · simp at h
        · rename_i arg rest hPE
          have hrest := ihE t arg rest hPE
          split at h
          · have h2 := ihG op (acc ++ [arg]) _ e r h
            have h3 := length_skipSpaceRegex_le ((skipSpaceRegex rest).tail)
            have h4 := length_skipSpaceRegex_le rest
            have h5 : ((skipSpaceRegex rest).tail).length = (skipSpaceRegex rest).length - 1 := by
              simp [List.length_tail]
            omega
          · split at h
            · have h2 := ihA _ _ e r h
              have h4 := length_skipSpaceRegex_le rest
              have h5 : ((skipSpaceRegex rest).tail).length = (skipSpaceRegex rest).length - 1 := by
                simp [List.length_tail]
              omega
            · simp at h

theorem parse_sufficient : ∀ f : Nat,
    (∀ s, 2 * s.length + 1 ≤ f → parseExpressionF f s ≠ none) ∧
    (∀ e s, 2 * s.length + 1 ≤ f → parseApplyF f e s ≠ none) ∧
    (∀ op acc t, 2 * t.length + 2 ≤ f → parseArgsF f op acc t ≠ none) := by
  intro f
  induction f with
  | zero =>
    refine ⟨?_, ?_, ?_⟩
    · intro s hf; omega
    · intro e s hf; omega
    · intro op acc t hf; omega
  | succ f ih =>
    obtain ⟨ihE, ihA, ihG⟩ := ih
    refine ⟨?_, ?_, ?_⟩
    · intro s hf
      simp only [parseExpressionF]
      split
      · simp
      · rename_i e0 rest htok
        apply ihA
        have h1 := tokenAt_consume _ _ _ htok
        have h2 := length_skipSpaceRegex_le s
        omega
    · intro e s hf
      simp only [parseApplyF]
      split
      · rename_i hpar
        apply ihG
        have h1 : skipSpaceRegex s ≠ [] := by
          intro hh; rw [hh] at hpar; simp at hpar
        have h2 := length_skipSpaceRegex_le s
        have h3 := length_skipSpaceRegex_le ((skipSpaceRegex s).tail)
        have h4 : ((skipSpaceRegex s).tail).length = (skipSpaceRegex s).length - 1 := by
          simp [List.length_tail]
        have h5 : 1 ≤ (skipSpaceRegex s).length := by
          match hs : skipSpaceRegex s, h1 with
          | x :: xs, _ => simp
        omega
      · simp
    · intro op acc t hf
      simp only [parseArgsF]
      split
      · rename_i hpar
        apply ihA
        have h3 : t.tail.length = t.length - 1 := by simp [List.length_tail]
        omega
      · have hE := ihE t (by omega)
        cases hPE : parseExpressionF f t with
        | none => exact absurd hPE hE
        | some res =>
          cases res with
          | error m => simp [hPE]
          | ok pr =>
            obtain ⟨arg, rest⟩ := pr
            have hrest := (parse_consume f).1 t arg rest hPE
            split
            · rename_i heq; simp at heq
            · rename_i m heq; simp at heq
            · rename_i arg2 rest2 heq
              simp only [Option.some.injEq, Except.ok.injEq, Prod.mk.injEq] at heq
              obtain ⟨h1, h2⟩ := heq
              subst h1
              subst h2
              split
              · apply ihG
                have h3 := length_skipSpaceRegex_le ((skipSpaceRegex rest).tail)
                have h4 := length_skipSpaceRegex_le rest
                have h5 : ((skipSpaceRegex rest).tail).length = (skipSpaceRegex rest).length - 1 := by
                  simp [List.length_tail]
                omega
              · split
                · apply ihA
                  have h4 := length_skipSpaceRegex_le rest
                  have h5 : ((skipSpaceRegex rest).tail).length = (skipSpaceRegex rest).length - 1 := by
                    simp [List.length_tail]
                  omega
                · simp

/-- `parse` of `src/unnamed/part_001`: run `parseExpression` on the whole
program and reject trailing non-whitespace/non-comment text.  Fuel
`2 * length + 1` is always enough by `parse_sufficient`, so this is a
total function from input text to expression-or-SyntaxError. -/
def parse (s : List Char) : Except String Expr :=
  match h : parseExpressionF (2 * s.length + 1) s with
  | some (.error m) => .error m
  | some (.ok (e, r)) =>
    if (skipSpaceRegex r).length > 0 then .error "Unexpected text after program"
    else .ok e
  | none => absurd h ((parse_sufficient (2 * s.length + 1)).1 s (Nat.le_refl _))

/-- `parse` on an actual string. -/
def parseS (s : String) : Except String Expr := parse s.data

/-! ## Values, scopes and errors -/

/-- The host builtins installed on `topScope`.  The numeric division `/`
produces host floating-point values and is left outside the integer
embedding; no other builtin needs it. -/
inductive HostFn where
  | add | sub | mul | eq | lt | gt
  | print | mkArray | length | element
deriving DecidableEq

/-- Runtime values.  `closure` is the function produced by the `fun`
special form: parameter names, body expression and the identity (heap
index) of the scope object captured at definition time.  `undef` models
the host value `undefined`, which lies outside the language's documented
value space but is produced by out-of-range array indexing. -/
inductive Value where
  | num : Int → Value
  | str : String → Value
  | bool : Bool → Value
  | arr : List Value → Value
  | closure : List String → Expr → Nat → Value
  | host : HostFn → Value
  | undef : Value

/-- `evaluate(args[0], scope) !== false`: only the Boolean `false` value
fails this test. -/
def isFalse : Value → Bool
  | .bool false => true
  | _ => false

/-- `typeof op == "function"`: the callable values of the host are the
`fun`-built closures and the builtin functions. -/
def isCallable : Value → Bool
  | .closure _ _ _ => true
  | .host _ => true
  | _ => false

/-- The three error kinds thrown by the evaluator. -/
inductive Err where
  | syntaxErr : String → Err
  | refErr : String → Err
  | typeErr : String → Err

/-- One scope object: its own property map (JavaScript own properties,
in insertion order) and its prototype (`Object.create(parent)`). -/
structure Frame where
  bindings : List (String × Value)
  parent : Option Nat

/-- The interpreter state: the heap of scope objects (a scope is named by
its index; objects are never freed) and the `print` output trace. -/
structure St where
  frames : List Frame
  output : List Value

/-- Own-property read on one scope object. -/
def lookupFrame : List (String × Value) → String → Option Value
  | [], _ => none
  | (k, v) :: rest, n => if k = n then some v else lookupFrame rest n

/-- Own-property write on one scope object: `scope[name] = value`
replaces the binding if the name is present, else appends it. -/
def setBinding : List (String × Value) → String → Value → List (String × Value)
  | [], n, v => [(n, v)]
  | (k, w) :: rest, n, v =>
    if k = n then (n, v) :: rest else (k, w) :: setBinding rest n v

/-- The JavaScript `in` / property read through the prototype chain:
check the own map, else ask the parent.  The chain in every reachable
state points to strictly earlier frames, so `frames.length` steps always
suffice; the fuel only guards the recursion. -/
def lookupChain (frames : List Frame) : Nat → Nat → String → Option Value
  | 0, _, _ => none
  | f + 1, sc, n =>
    match frames[sc]? with
    | none => none
    | some fr =>
      match lookupFrame fr.bindings n with
      | some v => some v
      | none =>
        match fr.parent with
        | none => none
        | some p => lookupChain frames f p n

/-- Scope-chain lookup as used by `evaluate` on a word. -/
def scopeLookup (st : St) (sc : Nat) (n : String) : Option Value :=
  lookupChain st.frames st.frames.length sc n

/-- `scope[args[0].name] = value` in `specialForms.define`: the write
goes to the own map of the scope object passed to the evaluation, never
to an ancestor. -/
def scopeSet (st : St) (sc : Nat) (n : String) (v : Value) : St :=
  match st.frames[sc]? with
  | none => st
  | some fr =>
    { st with frames := st.frames.set sc ⟨setBinding fr.bindings n v, fr.parent⟩ }

/-! ## Host builtins -/

/-- The builtins of `topScope`.  The binary operators are the external
collaborators of spec section 4.4, modelled on the operand kinds the
language itself produces (numbers, plus string concatenation and
primitive equality); unsuitable operand kinds are the host-defined
error.  `element` reproduces the source faithfully: both type checks,
then the raw host indexing `array[n]`, which yields `undefined` out of
range. -/
def hostApply (h : HostFn) (vs : List Value) (st : St) : Except Err (Value × St) :=
  match h, vs with
  | .add, [.num a, .num b] => .ok (.num (a + b), st)
  | .add, [.str a, .str b] => .ok (.str (a ++ b), st)
  | .sub, [.num a, .num b] => .ok (.num (a - b), st)
  | .mul, [.num a, .num b] => .ok (.num (a * b), st)
  | .eq, [.num a, .num b] => .ok (.bool (a = b), st)
  | .eq, [.str a, .str b] => .ok (.bool (a = b), st)
  | .eq, [.bool a, .bool b] => .ok (.bool (a = b), st)
  | .lt, [.num a, .num b] => .ok (.bool (a < b), st)
  | .gt, [.num a, .num b] => .ok (.bool (b < a), st)
  | .print, [v] => .ok (v, { st with output := st.output ++ [v] })
  | .mkArray, vs => .ok (.arr vs, st)
  | .length, vs =>
    match vs.headD .undef with
    | .arr l => .ok (.num (Int.ofNat l.length), st)
    | _ => .error (.typeErr "Argument to length must be an array")
  | .element, vs =>
    match vs.headD .undef, (vs.drop 1).headD .undef with
    | .arr l, .num n =>
      if n < 0 then .ok (.undef, st)
      else
        match l[n.toNat]? with
        | some v => .ok (v, st)
        | none => .ok (.undef, st)
    | .arr _, _ => .error (.typeErr "Second argument to element must be a number")
    | _, _ => .error (.typeErr "First argument to element must be an array")
  | _, _ => .error (.typeErr "host operator applied to unsuitable operands")

/-! ## Special forms and the evaluator -/

/-- The keys of the `specialForms` registry. -/
inductive SpecialForm where
  | sIf | sWhile | sDo | sDefine | sFun
deriving DecidableEq

/-- The `specialForms` object: `operator.name in specialForms`. -/
def specialForms : String → Option SpecialForm
  | "if" => some .sIf
  | "while" => some .sWhile
  | "do" => some .sDo
  | "define" => some .sDefine
  | "fun" => some .sFun
  | _ => none

/-- `operator.type == "word" && operator.name in specialForms`. -/
def specialOf : Expr → Option SpecialForm
  | .word n => specialForms n
  | _ => none

/-- Parameter-name extraction in `specialForms.fun`: every argument
before the body must be a word. -/
def funParams : List Expr → Except String (List String)
  | [] => .ok []
  | .word n :: rest => (funParams rest).map (fun ps => n :: ps)
  | _ :: _ => .error "Parameters names must be words"

/-! `evaluate` and its collaborators.  `none` is fuel exhaustion (the
source's potential divergence, e.g. a `while` whose condition never
becomes false); `some (.error e)` is a thrown error; `some (.ok (v, st))`
is a value together with the post-state. -/

mutual

def evalE : Nat → Expr → Nat → St → Option (Except Err (Value × St))
  | 0, _, _, _ => none
  | _ + 1, .value (.num n), _, st => some (.ok (.num n, st))
  | _ + 1, .value (.str s), _, st => some (.ok (.str s, st))
  | _ + 1, .word n, sc, st =>
    match scopeLookup st sc n with
    | some v => some (.ok (v, st))
    | none => some (.error (.refErr ("Undefined binding: " ++ n)))
  | f + 1, .apply op args, sc, st =>
    match specialOf op with
    | some sf => runSpecial f sf args sc st
    | none =>
      match evalE f op sc st with
      | some (.ok (fv, st1)) =>
        if isCallable fv then
          match evalArgs f args sc st1 with
          | some (.ok (vs, st2)) => applyV f fv vs st2
          | some (.error e) => some (.error e)
          | none => none
        else
          some (.error (.typeErr "Applying a non-function."))
      | some (.error e) => some (.error e)
      | none => none
termination_by structural f _ _ _ => f

def evalArgs : Nat → List Expr → Nat → St → Option (Except Err (List Value × St))
  | 0, _, _, _ => none
  | _ + 1, [], _, st => some (.ok ([], st))
  | f + 1, a :: rest, sc, st =>
    match evalE f a sc st with
    | some (.ok (v, st1)) =>
      match evalArgs f rest sc st1 with
      | some (.ok (vs, st2)) => some (.ok (v :: vs, st2))
      | some (.error e) => some (.error e)
      | none => none
    | some (.error e) => some (.error e)
    | none => none
termination_by structural f _ _ _ => f

def applyV : Nat → Value → List Value → St → Option (Except Err (Value × St))
  | 0, _, _, _ => none
  | f + 1, .closure ps body defSc, vs, st =>
    if vs.length ≠ ps.length then
      some (.error (.typeErr "Wrong number of arguments"))
    else
      evalE f body st.frames.length
        { st with frames := st.frames ++ [⟨(ps.zip vs).reverse, some defSc⟩] }
  | _ + 1, .host h, vs, st => some (hostApply h vs st)
  | _ + 1, _, _, _ => some (.error (.typeErr "Applying a non-function."))
termination_by structural f _ _ _ => f

def runSpecial : Nat → SpecialForm → List Expr → Nat → St → Option (Except Err (Value × St))
  | 0, _, _, _, _ => none
  | f + 1, .sIf, args, sc, st =>
    match args with
    | [c, t, e] =>
      (match evalE f c sc st with
      | some (.ok (v, st1)) =>
        if isFalse v then evalE f e sc st1 else evalE f t sc st1
      | some (.error er) => some (.error er)
      | none => none)
    | _ => some (.error (.syntaxErr "Wrong number of args to if"))
  | f + 1, .sWhile, args, sc, st =>
    match args with
    | [c, b] => whileLoop f c b sc st
    | _ => some (.error (.syntaxErr "Wrong number of args to while"))
  | f + 1, .sDo, args, sc, st => doLoop f args sc st (.bool false)
  | f + 1, .sDefine, args, sc, st =>
    match args with
    | [.word n, e] =>
      (match evalE f e sc st with
      | some (.ok (v, st1)) => some (.ok (v, scopeSet st1 sc n v))
      | some (.error er) => some (.error er)
      | none => none)
    | _ => some (.error (.syntaxErr "Incorrect use of define"))
  | _ + 1, .sFun, args, sc, st =>
    match args.getLast? with
    | none => some (.error (.syntaxErr "Functions need a body"))
    | some body =>
      match funParams args.dropLast with
      | .error m => some (.error (.syntaxErr m))
      | .ok ps => some (.ok (.closure ps body sc, st))
termination_by structural f _ _ _ _ => f

def whileLoop : Nat → Expr → Expr → Nat → St → Option (Except Err (Value × St))
  | 0, _, _, _, _ => none
  | f + 1, c, b, sc, st =>
    match evalE f c sc st with
    | some (.ok (v, st1)) =>
      if isFalse v then some (.ok (.bool false, st1))
      else
        match evalE f b sc st1 with
        | some (.ok (_, st2)) => whileLoop f c b sc st2
        | some (.error e) => some (.error e)
        | none => none
    | some (.error e) => some (.error e)
    | none => none
termination_by structural f _ _ _ _ => f

def doLoop : Nat → List Expr → Nat → St → Value → Option (Except Err (Value × St))
  | 0, _, _, _, _ => none
  | _ + 1, [], _, st, v => some (.ok (v, st))
  | f + 1, a :: rest, sc, st, _ =>
    match evalE f a sc st with
    | some (.ok (v, st1)) => doLoop f rest sc st1 v
    | some (.error e) => some (.error e)
    | none => none
termination_by structural f _ _ _ _ => f

end

/-! ## The global environment and `run` -/

/-- The `topScope` object with its bindings in source order (the
floating-point division operator `/` is outside the embedding, see
`HostFn`). -/
def topFrame : Frame :=
  ⟨[("true", .bool true), ("false", .bool false),
    ("+", .host .add), ("-", .host .sub), ("*", .host .mul),
    ("==", .host .eq), ("<", .host .lt), (">", .host .gt),
    ("print", .host .print), ("array", .host .mkArray),
    ("length", .host .length), ("element", .host .element)], none⟩

/-- The state at the start of `run`: the global scope (frame 0) and the
fresh program scope `Object.create(topScope)` (frame 1). -/
def runSt : St := ⟨[topFrame, ⟨[], some 0⟩], []⟩

/-- `run(program)`: parse, then evaluate in a fresh scope delegating to
`topScope`; the result is the program's value (`none` = the given fuel
did not cover the evaluation). -/
def run (fuel : Nat) (program : String) : Option (Except Err Value) :=
  match parseS program with
  | .error m => some (.error (.syntaxErr m))
  | .ok e =>
    match evalE fuel e 1 runSt with
    | some (.ok (v, _)) => some (.ok v)
    | some (.error er) => some (.error er)
    | none => none

/-! ## Helper lemmas about scope writes and loops -/

theorem lookupFrame_setBinding_self (bs : List (String × Value)) (n : String) (v : Value) :
    lookupFrame (setBinding bs n v) n = some v := by
  induction bs with
  | nil => simp [setBinding, lookupFrame]
  | cons p rest ih =>
    obtain ⟨k, w⟩ := p
    rw [setBinding]
    split
    · simp [lookupFrame]
    · rename_i hk
      rw [lookupFrame, if_neg hk]
      exact ih

theorem lookupFrame_setBinding_other (bs : List (String × Value)) (n m : String)
    (v : Value) (h : m ≠ n) :
    lookupFrame (setBinding bs n v) m = lookupFrame bs m := by
  induction bs with
  | nil =>
    rw [setBinding, lookupFrame, lookupFrame, if_neg (fun hh => h hh.symm),
      lookupFrame]
  | cons p rest ih =>
    obtain ⟨k, w⟩ := p
    rw [setBinding]
    split
    · rename_i hk
      subst hk
      rw [lookupFrame, lookupFrame, if_neg (fun hh => h hh.symm),
        if_neg (fun hh => h hh.symm)]
    · rename_i hk
      rw [lookupFrame, lookupFrame]
      split
      · rfl
      · exact ih

theorem scopeSet_frames_other (st : St) (sc j : Nat) (n : String) (v : Value)
    (h : j ≠ sc) :
    (scopeSet st sc n v).frames[j]? = st.frames[j]? := by
  unfold scopeSet
  split
  · rfl
  · simp [List.getElem?_set_ne (Ne.symm h)]

theorem scopeLookup_scopeSet_self (st : St) (sc : Nat) (n : String) (v : Value)
    (h : sc < st.frames.length) :
    scopeLookup (scopeSet st sc n v) sc n = some v := by
  unfold scopeLookup scopeSet
  split
  · rename_i hnone
    rw [List.getElem?_eq_none_iff] at hnone
    omega
  · rename_i fr hfr
    simp only [List.length_set]
    obtain ⟨k, hk⟩ : ∃ k, st.frames.length = k + 1 := ⟨st.frames.length - 1, by omega⟩
    rw [hk, lookupChain, List.getElem?_set_self (by omega)]
    simp [lookupFrame_setBinding_self]

theorem whileLoop_false (f : Nat) : ∀ c b sc st v st',
    whileLoop f c b sc st = some (.ok (v, st')) → v = .bool false := by
  induction f with
  | zero =>
    intro c b sc st v st' h
    simp [whileLoop] at h
  | succ f ih =>
    intro c b sc st v st' h
    rw [whileLoop] at h
    split at h
    · rename_i v1 st1 heq
      split at h
      · simp only [Option.some.injEq, Except.ok.injEq, Prod.mk.injEq] at h
        exact h.1.symm
      · split at h
        · exact ih _ _ _ _ _ _ h
        · simp at h
        · simp at h
    · simp at h
    · simp at h

/-! ## Claim theorems -/

/-- C3: the `if` special form takes exactly 3 argument expressions; with
any other count a SyntaxError is raised without evaluating anything.
With `[a, b, c]` it first evaluates `a`; if the result is not the
Boolean `false` the result is the evaluation of `b` alone, otherwise the
evaluation of `c` alone — the equation shows exactly one of the two is
evaluated (errors and divergence of the condition propagate). -/
theorem if_special_form_semantics (f : Nat) (args : List Expr) (sc : Nat) (st : St) :
    (args.length ≠ 3 →
      evalE (f + 2) (.apply (.word "if") args) sc st =
        some (.error (.syntaxErr "Wrong number of args to if"))) ∧
    (∀ a b c, args = [a, b, c] →
      evalE (f + 2) (.apply (.word "if") args) sc st =
        match evalE f a sc st with
        | some (.ok (v, st1)) =>
          if isFalse v then evalE f c sc st1 else evalE f b sc st1
        | r => r) := by
  have hd : evalE (f + 2) (.apply (.word "if") args) sc st =
      runSpecial (f + 1) .sIf args sc st := by
    simp [evalE, specialOf, specialForms]
  constructor
  · intro h
    rcases args with _ | ⟨a, _ | ⟨b, _ | ⟨c, _ | ⟨d, rest⟩⟩⟩⟩
    · exact hd.trans rfl
    · exact hd.trans rfl
    · exact hd.trans rfl
    · simp at h
    · exact hd.trans rfl
  · intro a b c heq
    subst heq
    have hr : runSpecial (f + 1) .sIf [a, b, c] sc st =
        (match evalE f a sc st with
        | some (.ok (v, st1)) =>
          if isFalse v then evalE f c sc st1 else evalE f b sc st1
        | some (.error er) => some (.error er)
        | none => none) := rfl
    rw [hd, hr]
    cases hv : evalE f a sc st with
    | none => rfl
    | some r =>
      cases r with
      | error er => rfl
      | ok p =>
        obtain ⟨v, st1⟩ := p
        rfl

/-- Witness for `if_special_form_semantics` at concrete inputs: the
wrong-arity case on zero arguments and the three-argument equation on
`if(true, 1, 2)` in the fresh `run` scope. -/
theorem if_special_form_semantics_witness :
    evalE 2 (.apply (.word "if") []) 1 runSt =
      some (.error (.syntaxErr "Wrong number of args to if")) ∧
    evalE 2 (.apply (.word "if") [.word "true", .value (.num 1), .value (.num 2)]) 1 runSt =
      match evalE 0 (.word "true") 1 runSt with
      | some (.ok (v, st1)) =>
        if isFalse v then evalE 0 (.value (.num 2)) 1 st1
        else evalE 0 (.value (.num 1)) 1 st1
      | r => r :=
  ⟨(if_special_form_semantics 0 [] 1 runSt).1 (by decide),
   (if_special_form_semantics 0 [.word "true", .value (.num 1), .value (.num 2)] 1 runSt).2
     (.word "true") (.value (.num 1)) (.value (.num 2)) rfl⟩

/-- C4: constructs with no meaningful result return the Boolean `false`:
an empty `do` returns `false` leaving the state unchanged, and a `while`
application that terminates successfully (its condition eventually
evaluating to Boolean `false`) always returns `false`, whatever its body
produced. -/
theorem do_empty_and_while_return_false :
    (∀ f sc st, evalE (f + 3) (.apply (.word "do") []) sc st =
      some (.ok (.bool false, st))) ∧
    (∀ f c b sc st v st',
      evalE f (.apply (.word "while") [c, b]) sc st = some (.ok (v, st')) →
      v = .bool false) := by
  constructor
  · intro f sc st
    rfl
  · intro f c b sc st v st' h
    match f with
    | 0 => simp [evalE] at h
    | g + 1 =>
      simp only [evalE, specialOf, specialForms] at h
      match g with
      | 0 => simp [runSpecial] at h
      | k + 1 =>
        simp only [runSpecial] at h
        exact whileLoop_false k c b sc st v st' h

/-- Witness for `do_empty_and_while_return_false`: `while(false, 1)`
terminates at once and the theorem forces its result to be `false`. -/
theorem do_empty_and_while_return_false_witness : Value.bool false = Value.bool false :=
  do_empty_and_while_return_false.2 10 (.word "false") (.value (.num 1)) 1 runSt
    (.bool false) runSt rfl

/-- C8: an application whose operator is the identifier of a registered
special form always dispatches to that handler on the raw argument
expressions; the equation holds for every state, so a scope binding of
the same name (as created by `define(if, 3)`) is never consulted — the
concrete program still runs the `if` special form and yields 2. -/
theorem special_form_dispatch_unshadowed :
    (∀ f n sf args sc st, specialForms n = some sf →
      evalE (f + 1) (.apply (.word n) args) sc st = runSpecial f sf args sc st) ∧
    run 50 "do(define(if, 3), if(false, 1, 2))" = some (.ok (.num 2)) := by
  constructor
  · intro f n sf args sc st hsf
    simp [evalE, specialOf, hsf]
  · rfl

/-- Witness for `special_form_dispatch_unshadowed`: dispatch of `while`
in a state whose program scope is arbitrary. -/
theorem special_form_dispatch_unshadowed_witness :
    evalE 6 (.apply (.word "while") [.word "false", .value (.num 1)]) 1 runSt =
      runSpecial 5 .sWhile [.word "false", .value (.num 1)] 1 runSt :=
  special_form_dispatch_unshadowed.1 5 "while" .sWhile
    [.word "false", .value (.num 1)] 1 runSt rfl

/-- C1: calling a closure built by `fun` evaluates the body in a fresh
scope object (appended to the heap) whose delegate is the scope captured
at definition time — the caller's scope does not occur in the equation.
The concrete program `do(define(f, fun(a, fun(b, +(a, b)))), f(4)(5))`
evaluates to 9: the inner closure still sees `a = 4` after the defining
call has returned. -/
theorem fun_lexical_capture :
    (∀ f ps body defSc vs st, vs.length = ps.length →
      applyV (f + 1) (.closure ps body defSc) vs st =
        evalE f body st.frames.length
          { st with frames := st.frames ++ [⟨(ps.zip vs).reverse, some defSc⟩] }) ∧
    run 50 "do(define(f, fun(a, fun(b, +(a, b)))), f(4)(5))" = some (.ok (.num 9)) := by
  constructor
  · intro f ps body defSc vs st h
    simp [applyV, h]
  · rfl

/-- Witness for `fun_lexical_capture`: a one-parameter closure captured
in the global scope, applied to one value. -/
theorem fun_lexical_capture_witness :
    applyV 1 (.closure ["a"] (.word "a") 0) [.num 1] runSt =
      evalE 0 (.word "a") 2 ⟨runSt.frames ++ [⟨[("a", .num 1)], some 0⟩], []⟩ :=
  fun_lexical_capture.1 0 ["a"] (.word "a") 0 [.num 1] runSt rfl

/-- C2: `define(name, expr)` evaluates `expr` and then writes the
binding with `scopeSet` into the frame `sc` it was evaluated in (first
conjunct).  `scopeSet` touches no other frame, a shadowed name looks up
to the new value in the written scope, and other names in any frame are
unaffected (conjuncts 2-4).  Concretely, an inner `define(x, 2)` inside
a function body shadows the outer `x = 1` for lookups inside the nested
scope, and the outer binding still reads 1 afterwards: the program
evaluates to the array [2, 1]. -/
theorem define_writes_local :
    (∀ f n e sc st,
      evalE (f + 2) (.apply (.word "define") [.word n, e]) sc st =
        match evalE f e sc st with
        | some (.ok (v, st1)) => some (.ok (v, scopeSet st1 sc n v))
        | r => r) ∧
    (∀ st sc j n v, j ≠ sc → (scopeSet st sc n v).frames[j]? = st.frames[j]?) ∧
    (∀ st sc n v, sc < st.frames.length →
      scopeLookup (scopeSet st sc n v) sc n = some v) ∧
    (∀ bs n m v, m ≠ n →
      lookupFrame (setBinding bs n v) m = lookupFrame bs m) ∧
    run 50 "do(define(x, 1), define(f, fun(do(define(x, 2), x))), array(f(), x))" =
      some (.ok (.arr [.num 2, .num 1])) := by
  refine ⟨?_, scopeSet_frames_other, scopeLookup_scopeSet_self,
    fun bs n m v h => lookupFrame_setBinding_other bs n m v h, rfl⟩
  intro f n e sc st
  have hd : evalE (f + 2) (.apply (.word "define") [.word n, e]) sc st =
      runSpecial (f + 1) .sDefine [.word n, e] sc st := by
    simp [evalE, specialOf, specialForms]
  have hr : runSpecial (f + 1) .sDefine [.word n, e] sc st =
      (match evalE f e sc st with
      | some (.ok (v, st1)) => some (.ok (v, scopeSet st1 sc n v))
      | some (.error er) => some (.error er)
      | none => none) := rfl
  rw [hd, hr]
  cases hv : evalE f e sc st with
  | none => rfl
  | some r =>
    cases r with
    | error er => rfl
    | ok p =>
      obtain ⟨v, st1⟩ := p
      rfl

/-- Witness for `define_writes_local`: the frame-preservation conjuncts
applied in the initial `run` state (frame 0 unaffected by a write to
frame 1, shadow lookup sees the new value, other names untouched). -/
theorem define_writes_local_witness :
    (scopeSet runSt 1 "x" (.num 2)).frames[0]? = runSt.frames[0]? ∧
    scopeLookup (scopeSet runSt 1 "x" (.num 2)) 1 "x" = some (.num 2) ∧
    lookupFrame (setBinding [] "x" (.num 2)) "y" = lookupFrame [] "y" :=
  ⟨define_writes_local.2.1 runSt 1 0 "x" (.num 2) (by decide),
   define_writes_local.2.2.1 runSt 1 "x" (.num 2) (by decide),
   define_writes_local.2.2.2.1 [] "x" "y" (.num 2) (by decide)⟩

/-- C6: the evaluator raises exactly the specified error kinds: an
identifier bound nowhere in the scope chain is a ReferenceError; calling
a closure with an argument count different from its parameter count is a
TypeError (the check the produced function itself performs); and an
Application whose operator evaluates to a non-callable value raises
TypeError at once — before any argument expression is evaluated, as in
the source, where `typeof op == "function"` is tested before
`args.map`.  The `run` conjuncts show each end to end; the last one has
an unbound identifier in argument position, so its TypeError (and not a
ReferenceError) shows the arguments stay unevaluated. -/
theorem evaluate_error_kinds :
    (∀ f n sc st, scopeLookup st sc n = none →
      evalE (f + 1) (.word n) sc st =
        some (.error (.refErr ("Undefined binding: " ++ n)))) ∧
    (∀ f ps body defSc vs st, vs.length ≠ ps.length →
      applyV (f + 1) (.closure ps body defSc) vs st =
        some (.error (.typeErr "Wrong number of arguments"))) ∧
    (∀ f op args sc st fv st1, specialOf op = none →
      evalE f op sc st = some (.ok (fv, st1)) → isCallable fv = false →
      evalE (f + 1) (.apply op args) sc st =
        some (.error (.typeErr "Applying a non-function."))) ∧
    run 20 "nosuch" = some (.error (.refErr "Undefined binding: nosuch")) ∧
    run 50 "do(define(g, fun(a, a)), g(1, 2))" =
      some (.error (.typeErr "Wrong number of arguments")) ∧
    run 50 "do(define(x, 5), x(nosuch))" =
      some (.error (.typeErr "Applying a non-function.")) := by
  refine ⟨?_, ?_, ?_, rfl, rfl, rfl⟩
  · intro f n sc st h
    simp [evalE, h]
  · intro f ps body defSc vs st h
    simp [applyV, h]
  · intro f op args sc st fv st1 hsp hop hnc
    have hd : evalE (f + 1) (.apply op args) sc st =
        (match specialOf op with
        | some sf => runSpecial f sf args sc st
        | none =>
          match evalE f op sc st with
          | some (.ok (fv, st1)) =>
            if isCallable fv then
              match evalArgs f args sc st1 with
              | some (.ok (vs, st2)) => applyV f fv vs st2
              | some (.error e) => some (.error e)
              | none => none
            else
              some (.error (.typeErr "Applying a non-function."))
          | some (.error e) => some (.error e)
          | none => none) := rfl
    rw [hd, hsp, hop]
    simp [hnc]

/-- Witness for `evaluate_error_kinds`: an unbound word in the fresh
`run` state, a one-parameter closure called with no arguments, and a
Number literal applied to an unbound identifier (the TypeError precedes
any look at the argument). -/
theorem evaluate_error_kinds_witness :
    evalE 1 (.word "nosuch") 1 runSt =
      some (.error (.refErr "Undefined binding: nosuch")) ∧
    applyV 1 (.closure ["a"] (.word "a") 0) [] runSt =
      some (.error (.typeErr "Wrong number of arguments")) ∧
    evalE 2 (.apply (.value (.num 5)) [.word "nosuch"]) 1 runSt =
      some (.error (.typeErr "Applying a non-function.")) :=
  ⟨evaluate_error_kinds.1 0 "nosuch" 1 runSt rfl,
   evaluate_error_kinds.2.1 0 ["a"] (.word "a") 0 [] runSt (by decide),
   evaluate_error_kinds.2.2.1 1 (.value (.num 5)) [.word "nosuch"] 1 runSt
     (.num 5) runSt rfl rfl rfl⟩

/-- C7 counterexample: the two `skipSpace` revisions do not return the
same remaining text on every input.  On the one-character input `#` the
search-based revision (`src/parser.js`) leaves the comment in place
while the regex revision (`src/unnamed/part_001`) removes it. -/
theorem skipSpace_revisions_differ :
    skipSpaceSearch ['#'] ≠ skipSpaceRegex ['#'] := by
  decide

/-- C7 amended: the two `skipSpace` revisions agree exactly on the
inputs whose text after the leading whitespace run does not start a
`#` comment; on such inputs both return the input minus its leading
whitespace. -/
theorem skipSpace_agree_no_leading_comment (s : List Char)
    (h : (s.dropWhile isWspace).head? ≠ some '#') :
    skipSpaceSearch s = skipSpaceRegex s := by
  induction s with
  | nil => rfl
  | cons c rest ih =>
    by_cases hc : isWspace c
    · unfold skipSpaceSearch at *
      rw [List.dropWhile_cons_of_pos hc] at h ⊢
      rw [skipSpaceRegex, if_pos hc]
      exact ih h
    · unfold skipSpaceSearch at *
      rw [List.dropWhile_cons_of_neg hc] at h ⊢
      have hcc : ¬ c = '#' := by
        intro heq
        rw [List.head?_cons, heq] at h
        exact h rfl
      rw [skipSpaceRegex, if_neg hc, if_neg hcc]

/-- Witness for `skipSpace_agree_no_leading_comment`: whitespace then a
word character. -/
theorem skipSpace_agree_no_leading_comment_witness :
    skipSpaceSearch [' ', 'x'] = skipSpaceRegex [' ', 'x'] :=
  skipSpace_agree_no_leading_comment [' ', 'x'] (by decide)

/-- How `parse` behaves given the result of the underlying
`parseExpression` at the canonical fuel. -/
theorem parse_eq_of_PE (s : List Char) (res : Except String (Expr × List Char))
    (hres : parseExpressionF (2 * s.length + 1) s = some res) :
    parse s =
      match res with
      | .error m => .error m
      | .ok (e, r) =>
        if (skipSpaceRegex r).length > 0 then
          .error "Unexpected text after program"
        else .ok e := by
  unfold parse
  split
  · rename_i m heq
    have h2 : res = .error m := Option.some.inj (hres.symm.trans heq)
    subst h2
    rfl
  · rename_i e r heq
    have h2 : res = .ok (e, r) := Option.some.inj (hres.symm.trans heq)
    subst h2
    rfl
  · rename_i heq
    exact absurd heq ((parse_sufficient (2 * s.length + 1)).1 s (Nat.le_refl _))

/-- C5: `parse` is a total function from input text to an expression or
a SyntaxError (the error type of the parser holds SyntaxError messages,
the only kind the source parser throws).  It errors when, after a
complete expression, non-whitespace/non-comment text remains, and when
no token shape matches at the current position. -/
theorem parse_total_and_error_conditions (s : List Char) :
    ((∃ e, parse s = .ok e) ∨ (∃ m, parse s = .error m)) ∧
    (∀ e r, parseExpressionF (2 * s.length + 1) s = some (.ok (e, r)) →
      (skipSpaceRegex r).length > 0 →
      parse s = .error "Unexpected text after program") ∧
    (tokenAt (skipSpaceRegex s) = none →
      parse s = .error ("Unexpected syntax: " ++ String.mk (skipSpaceRegex s))) := by
  refine ⟨?_, ?_, ?_⟩
  · cases hp : parse s with
    | ok e => exact Or.inl ⟨e, rfl⟩
    | error m => exact Or.inr ⟨m, rfl⟩
  · intro e r hPE htr
    rw [parse_eq_of_PE s _ hPE]
    show (if (skipSpaceRegex r).length > 0 then
        Except.error "Unexpected text after program"
      else Except.ok e) = _
    rw [if_pos htr]
  · intro htok
    have hPE : parseExpressionF (2 * s.length + 1) s =
        some (.error ("Unexpected syntax: " ++ String.mk (skipSpaceRegex s))) := by
      simp only [parseExpressionF, htok]
    rw [parse_eq_of_PE s _ hPE]

/-- Witness for `parse_total_and_error_conditions`: trailing text after
a complete expression (`x y`) and the empty input, where no token
matches. -/
theorem parse_total_and_error_conditions_witness :
    parse ['x', ' ', 'y'] = .error "Unexpected text after program" ∧
    parse [] = .error ("Unexpected syntax: " ++ String.mk []) :=
  ⟨(parse_total_and_error_conditions ['x', ' ', 'y']).2.1 (.word "x") ['y'] rfl
     (by decide),
   (parse_total_and_error_conditions []).2.2 rfl⟩

/-- A decimal digit is a word-token character: it is not whitespace and
not one of the structural characters excluded by the word regex. -/
theorem digit_isWordTokChar (d : Char) (hd : d.isDigit = true) :
    isWordTokChar d = true := by
  by_cases h1 : d = ' '
  · rw [h1] at hd; exact absurd hd (by decide)
  by_cases h2 : d = '\t'
  · rw [h2] at hd; exact absurd hd (by decide)
  by_cases h3 : d = '\n'
  · rw [h3] at hd; exact absurd hd (by decide)
  by_cases h4 : d = '\r'
  · rw [h4] at hd; exact absurd hd (by decide)
  by_cases h5 : d = '\x0b'
  · rw [h5] at hd; exact absurd hd (by decide)
  by_cases h6 : d = '\x0c'
  · rw [h6] at hd; exact absurd hd (by decide)
  by_cases h7 : d = '('
  · rw [h7] at hd; exact absurd hd (by decide)
  by_cases h8 : d = ')'
  · rw [h8] at hd; exact absurd hd (by decide)
  by_cases h9 : d = ','
  · rw [h9] at hd; exact absurd hd (by decide)
  by_cases h10 : d = '#'
  · rw [h10] at hd; exact absurd hd (by decide)
  by_cases h11 : d = '"'
  · rw [h11] at hd; exact absurd hd (by decide)
  simp [isWordTokChar, isWspace, h1, h2, h3, h4, h5, h6, h7, h8, h9, h10, h11]

/-- C9: an input whose next maximal token starts with digits but whose
digit run is followed by a word character fails the boundary-checked
number regex, so the bare-word pattern matches instead: the token is a
single Identifier covering the whole maximal word token.  Concretely,
`12abc` parses to the identifier `12abc`. -/
theorem digit_prefixed_word_token :
    (∀ s c, s.takeWhile Char.isDigit ≠ [] →
      (s.dropWhile Char.isDigit).head? = some c → isWordChar c = true →
      tokenAt s = some (.word (String.mk (s.takeWhile isWordTokChar)),
        s.dropWhile isWordTokChar)) ∧
    parseS "12abc" = .ok (.word "12abc") := by
  constructor
  · intro s c hne hc hw
    obtain ⟨d, t, rfl⟩ : ∃ d t, s = d :: t := by
      cases s with
      | nil => simp at hne
      | cons d t => exact ⟨d, t, rfl⟩
    have hd : d.isDigit = true := by
      by_contra hdd
      rw [List.takeWhile_cons_of_neg (by simpa using hdd)] at hne
      exact hne rfl
    have hq : ¬ d = '"' := by
      intro heq
      rw [heq] at hd
      exact absurd hd (by decide)
    have hs : matchString (d :: t) = none := by
      simp [matchString, hq]
    have hn : matchNumber (d :: t) = none := by
      unfold matchNumber
      rw [if_neg (by simpa [List.isEmpty_iff] using hne), hc]
      simp [hw]
    have hwt : isWordTokChar d = true := digit_isWordTokChar d hd
    have hmw : matchWord (d :: t) =
        some (String.mk ((d :: t).takeWhile isWordTokChar),
          (d :: t).dropWhile isWordTokChar) := by
      unfold matchWord
      rw [if_neg (by simp [List.takeWhile_cons_of_pos hwt])]
    unfold tokenAt
    rw [hs, hn, hmw]
  · rfl

/-- Witness for `digit_prefixed_word_token`: the token of `12abc`. -/
theorem digit_prefixed_word_token_witness :
    tokenAt ['1', '2', 'a', 'b', 'c'] = some (.word "12abc", []) :=
  digit_prefixed_word_token.1 ['1', '2', 'a', 'b', 'c'] 'a' (by decide) (by decide)
    (by decide)

/-- C10: `element(array, n)` on an Array and an out-of-range Number
(negative or at least the length) passes both type checks and raises no
error: the raw host indexing yields the sentinel `undef`, outside the
documented value space, and the state (hence the array) is unchanged.
The fractional case does not arise in the integer embedding (the parser
produces only integers and no builtin in scope produces fractions). -/
theorem element_out_of_range_sentinel :
    (∀ l (n : Int) st, (n < 0 ∨ (l.length : Int) ≤ n) →
      hostApply .element [.arr l, .num n] st = .ok (.undef, st)) ∧
    run 20 "element(array(1, 2), 5)" = some (.ok .undef) := by
  constructor
  · intro l n st h
    have hrw : hostApply .element [.arr l, .num n] st =
        (if n < 0 then .ok (.undef, st)
        else
          match l[n.toNat]? with
          | some v => .ok (v, st)
          | none => .ok (.undef, st)) := rfl
    rw [hrw]
    rcases h with h | h
    · rw [if_pos h]
    · have hn : ¬ n < 0 := by omega
      rw [if_neg hn]
      have hnone : l[n.toNat]? = none := List.getElem?_eq_none (by omega)
      rw [hnone]
  · rfl

/-- Witness for `element_out_of_range_sentinel`: index 5 into a
one-element array. -/
theorem element_out_of_range_sentinel_witness :
    hostApply .element [.arr [.num 7], .num 5] runSt = .ok (.undef, runSt) :=
  element_out_of_range_sentinel.1 [.num 7] 5 runSt (Or.inr (by decide))

end Wisp
